import Mathlib

/-!
Shallow embedding of the hyp3-rtc-gamma stack pipeline
(`src/rtc_sentinel_stack.py`, `hyp3_gamma/__main__.py`,
`hyp3_gamma/converter.py`) together with proofs about its
scene catalog, offset estimation/accumulation and product
generation phases.

Python strings are modelled as `List Char`; Python floats as `ℚ`
(exact arithmetic in place of IEEE 754); a Python function that
falls off the end of its body returns `Option.none`.
-/

/-- Function modelling Python's prefix test: `leadsWith p s` is true when the
character list `p` is an initial segment of `s`. -/
def leadsWith : List Char → List Char → Bool
  | [], _ => true
  | _ :: _, [] => false
  | p :: ps, c :: cs => p == c && leadsWith ps cs

/-- Function modelling Python's substring operator `pat in s` for strings:
true when `pat` occurs contiguously inside `s`. -/
def hasSub (pat : List Char) : List Char → Bool
  | [] => leadsWith pat []
  | c :: cs => leadsWith pat (c :: cs) || hasSub pat cs

/-- Python's `<` on strings: strict lexicographic comparison by code point.
This is the comparison `list.sort` performs on the sort keys. -/
def lexLt : List Char → List Char → Bool
  | _, [] => false
  | [], _ :: _ => true
  | a :: as, b :: bs =>
      if a.toNat < b.toNat then true
      else if b.toNat < a.toNat then false
      else lexLt as bs

/-- Python's `<=` on strings: lexicographic comparison by code point. -/
def lexLe : List Char → List Char → Bool
  | [], _ => true
  | _ :: _, [] => false
  | a :: as, b :: bs =>
      if a.toNat < b.toNat then true
      else if b.toNat < a.toNat then false
      else lexLe as bs

theorem lexLe_eq_not_lexLt (a b : List Char) : lexLe a b = !(lexLt b a) := by
  induction a generalizing b with
  | nil => cases b <;> simp [lexLe, lexLt]
  | cons x xs ih =>
      cases b with
      | nil => simp [lexLe, lexLt]
      | cons y ys =>
          simp only [lexLe, lexLt]
          rcases Nat.lt_trichotomy x.toNat y.toNat with h | h | h
          · simp [h, Nat.lt_asymm h]
          · simp [h, Nat.lt_irrefl, ih]
          · simp [h, Nat.lt_asymm h]

theorem lexLt_irrefl (a : List Char) : lexLt a a = false := by
  induction a with
  | nil => rfl
  | cons x xs ih => simp [lexLt, ih]

theorem lexLe_refl (a : List Char) : lexLe a a = true := by
  simp [lexLe_eq_not_lexLt, lexLt_irrefl]

theorem lexLe_trans {a b c : List Char} :
    lexLe a b = true → lexLe b c = true → lexLe a c = true := by
  induction a generalizing b c with
  | nil => intro _ _; rfl
  | cons x xs ih =>
      intro h1 h2
      cases b with
      | nil => simp [lexLe] at h1
      | cons y ys =>
          cases c with
          | nil => simp [lexLe] at h2
          | cons z zs =>
              simp only [lexLe] at h1 h2 ⊢
              by_cases hxy : x.toNat < y.toNat <;> by_cases hyx : y.toNat < x.toNat <;>
                by_cases hyz : y.toNat < z.toNat <;> by_cases hzy : z.toNat < y.toNat <;>
                  by_cases hxz : x.toNat < z.toNat <;> by_cases hzx : z.toNat < x.toNat <;>
                    simp_all <;> first | omega | exact Or.inr (ih h1 h2)

theorem lexLe_total (a b : List Char) : lexLe a b = true ∨ lexLe b a = true := by
  induction a generalizing b with
  | nil => left; rfl
  | cons x xs ih =>
      cases b with
      | nil => right; rfl
      | cons y ys =>
          simp only [lexLe]
          rcases Nat.lt_trichotomy x.toNat y.toNat with h | h | h
          · left; simp [h]
          · rw [h]
            simp only [Nat.lt_irrefl, if_false]
            exact ih ys
          · right; simp [h, Nat.lt_asymm h]

theorem not_lexLt_of_lexLe {a b : List Char} (h : lexLt b a = false) :
    lexLe a b = true := by
  rw [lexLe_eq_not_lexLt, h]; rfl

theorem lexLe_of_lexLt {a b : List Char} (h : lexLt a b = true) :
    lexLe a b = true := by
  rcases lexLe_total a b with h2 | h2
  · exact h2
  · rw [lexLe_eq_not_lexLt, h] at h2
    simp at h2

/-- Python's `str.split` with a one-character separator, on character lists:
`"".split(sep)` is `[""]`, and empty fields between adjacent separators are
kept, matching CPython's semantics for a non-empty separator. -/
def splitOnChar (sep : Char) : List Char → List (List Char)
  | [] => [[]]
  | c :: cs =>
      if c == sep then [] :: splitOnChar sep cs
      else
        match splitOnChar sep cs with
        | [] => [[c]]
        | t :: ts => (c :: t) :: ts

/-- Python's `str.upper`, restricted to the per-character mapping. -/
def pyUpper (s : List Char) : List Char := s.map Char.toUpper

/-- Date token extraction from `get_dates` (rtc_sentinel_stack.py lines
141-142): `string = fi.split(sep)[4]; date = string.split(sep)[0].upper()`.
Indexing `[4]` raises `IndexError` in Python when the field is absent; the
embedding totalises it with `getD`, and every theorem about it assumes the
field exists, as the spec's precondition does. -/
def extract_date (sep : Char) (fi : List Char) : List Char :=
  pyUpper ((splitOnChar sep ((splitOnChar sep fi).getD 4 [])).getD 0 [])

/-- Insertion step of a stable sort by the date component (the second
component of each pair): the new element walks past exactly the elements
whose key is strictly smaller, so it lands before any element of equal key. -/
def insertByDate (x : List Char × List Char) :
    List (List Char × List Char) → List (List Char × List Char)
  | [] => [x]
  | y :: ys => if lexLt y.2 x.2 then y :: insertByDate x ys else x :: y :: ys

/-- Stable sort by date key. Python's `list.sort(key=lambda row: row[1])` is a
stable sort whose key comparison is `<` on strings; a stable sort is
determined up to extensional equality by its comparison, so this insertion
sort is an exact model of it. Elements earlier in the input are inserted
later and jump over strictly smaller keys only, keeping ties in input order. -/
def sortByDate : List (List Char × List Char) → List (List Char × List Char)
  | [] => []
  | x :: xs => insertByDate x (sortByDate xs)

/-- Model of `get_dates` (rtc_sentinel_stack.py lines 138-151): pair each
identifier with its uppercased date token, sort stably by the token, and
return the identifiers and the tokens as parallel lists. -/
def get_dates (file_list : List (List Char)) (sep : Char) :
    List (List Char) × List (List Char) :=
  let date_and_file := file_list.map (fun fi => (fi, extract_date sep fi))
  let sorted := sortByDate date_and_file
  (sorted.map Prod.fst, sorted.map Prod.snd)

theorem insertByDate_perm (x : List Char × List Char)
    (l : List (List Char × List Char)) : (insertByDate x l).Perm (x :: l) := by
  induction l with
  | nil => exact List.Perm.refl _
  | cons y ys ih =>
      by_cases hlt : lexLt y.2 x.2
      · simp only [insertByDate, hlt, if_true]
        exact (ih.cons y).trans (List.Perm.swap x y ys)
      · simp only [insertByDate, hlt, if_false]
        exact List.Perm.refl _

theorem sortByDate_perm (l : List (List Char × List Char)) :
    (sortByDate l).Perm l := by
  induction l with
  | nil => exact List.Perm.refl _
  | cons x xs ih => exact (insertByDate_perm x (sortByDate xs)).trans (ih.cons x)

theorem insertByDate_sorted (x : List Char × List Char)
    (l : List (List Char × List Char))
    (h : l.Pairwise (fun p q => lexLe p.2 q.2 = true)) :
    (insertByDate x l).Pairwise (fun p q => lexLe p.2 q.2 = true) := by
  induction l with
  | nil => simp [insertByDate]
  | cons y ys ih =>
      rcases List.pairwise_cons.mp h with ⟨hy, hys⟩
      by_cases hlt : lexLt y.2 x.2
      · simp only [insertByDate, hlt, if_true]
        refine List.pairwise_cons.mpr ⟨?_, ih hys⟩
        intro z hz
        rcases List.mem_cons.mp ((insertByDate_perm x ys).mem_iff.mp hz) with rfl | hz2
        · exact lexLe_of_lexLt hlt
        · exact hy z hz2
      · simp only [insertByDate, hlt, if_false]
        refine List.pairwise_cons.mpr ⟨?_, h⟩
        intro z hz
        rcases List.mem_cons.mp hz with rfl | hz2
        · exact not_lexLt_of_lexLe (Bool.eq_false_iff.mpr hlt)
        · exact lexLe_trans (not_lexLt_of_lexLe (Bool.eq_false_iff.mpr hlt)) (hy z hz2)

theorem sortByDate_sorted (l : List (List Char × List Char)) :
    (sortByDate l).Pairwise (fun p q => lexLe p.2 q.2 = true) := by
  induction l with
  | nil => simp [sortByDate]
  | cons x xs ih => exact insertByDate_sorted x (sortByDate xs) ih

theorem filter_insertByDate_eq (x : List Char × List Char)
    (l : List (List Char × List Char)) (d : List Char) (hx : x.2 = d) :
    (insertByDate x l).filter (fun p => decide (p.2 = d)) =
      x :: l.filter (fun p => decide (p.2 = d)) := by
  induction l with
  | nil => simp [insertByDate, List.filter, hx]
  | cons y ys ih =>
      by_cases hlt : lexLt y.2 x.2
      · have hyd : y.2 ≠ d := by
          intro hyd2
          rw [hyd2, ← hx, lexLt_irrefl x.2] at hlt
          exact Bool.false_ne_true hlt
        simp [insertByDate, hlt, List.filter_cons, hyd, ih]
      · simp only [insertByDate]
        rw [if_neg hlt]
        simp [List.filter_cons, hx]

theorem filter_insertByDate_ne (x : List Char × List Char)
    (l : List (List Char × List Char)) (d : List Char) (hx : x.2 ≠ d) :
    (insertByDate x l).filter (fun p => decide (p.2 = d)) =
      l.filter (fun p => decide (p.2 = d)) := by
  induction l with
  | nil => simp [insertByDate, List.filter, hx]
  | cons y ys ih =>
      by_cases hlt : lexLt y.2 x.2
      · simp [insertByDate, hlt, List.filter_cons, ih]
      · simp [insertByDate, hlt, List.filter_cons, hx]

theorem filter_sortByDate (l : List (List Char × List Char)) (d : List Char) :
    (sortByDate l).filter (fun p => decide (p.2 = d)) =
      l.filter (fun p => decide (p.2 = d)) := by
  induction l with
  | nil => rfl
  | cons x xs ih =>
      by_cases hx : x.2 = d
      · rw [sortByDate, filter_insertByDate_eq x (sortByDate xs) d hx, ih,
          List.filter_cons]
        simp [hx]
      · rw [sortByDate, filter_insertByDate_ne x (sortByDate xs) d hx, ih,
          List.filter_cons]
        simp [hx]

theorem map_fst_datePairs (f : List Char → List Char) (l : List (List Char)) :
    (l.map fun a => (a, f a)).map Prod.fst = l := by
  induction l with
  | nil => rfl
  | cons a as ih => simp [ih]

theorem filter_datePairs (f : List Char → List Char) (l : List (List Char))
    (d : List Char) :
    (l.map fun a => (a, f a)).filter (fun p => decide (p.2 = d)) =
      (l.filter fun a => decide (f a = d)).map (fun a => (a, f a)) := by
  induction l with
  | nil => rfl
  | cons a as ih => by_cases hfa : f a = d <;> simp [List.filter_cons, hfa, ih]

theorem snd_of_mem_sorted_datePairs (f : List Char → List Char)
    (l : List (List Char)) (p : List Char × List Char)
    (hp : p ∈ sortByDate (l.map fun a => (a, f a))) : p.2 = f p.1 := by
  have hmem : p ∈ l.map fun a => (a, f a) :=
    (sortByDate_perm (l.map fun a => (a, f a))).mem_iff.mp hp
  rcases List.mem_map.mp hmem with ⟨a, _, rfl⟩
  rfl

/-- C2: for scene-identifier lists whose date token exists at split-field
index 4, `get_dates` returns a permutation of the input (no scene dropped or
duplicated), with the dates being the uppercased extracted tokens of the
returned identifiers, sorted non-decreasing lexicographically, and the sort
is stable: for each date value the identifiers carrying it keep their
original relative input order (their filtered subsequence is unchanged). -/
theorem get_dates_sorted_perm_stable (file_list : List (List Char)) (sep : Char)
    (h : ∀ fi ∈ file_list, 4 < (splitOnChar sep fi).length) :
    (get_dates file_list sep).1.Perm file_list
    ∧ (get_dates file_list sep).2 = (get_dates file_list sep).1.map (extract_date sep)
    ∧ (get_dates file_list sep).2.Pairwise (fun d e => lexLe d e = true)
    ∧ ∀ d, (get_dates file_list sep).1.filter (fun fi => decide (extract_date sep fi = d))
          = file_list.filter (fun fi => decide (extract_date sep fi = d)) := by
  clear h
  simp only [get_dates]
  refine ⟨?_, ?_, ?_, ?_⟩
  · have p1 := (sortByDate_perm
      (file_list.map fun fi => (fi, extract_date sep fi))).map Prod.fst
    rw [map_fst_datePairs] at p1
    exact p1
  · rw [List.map_map]
    refine List.map_congr_left ?_
    intro p hp
    exact snd_of_mem_sorted_datePairs _ _ p hp
  · exact List.pairwise_map.mpr (sortByDate_sorted _)
  · intro d
    rw [List.filter_map]
    have e1 : (sortByDate (file_list.map fun fi => (fi, extract_date sep fi))).filter
          ((fun fi => decide (extract_date sep fi = d)) ∘ Prod.fst)
        = (sortByDate (file_list.map fun fi => (fi, extract_date sep fi))).filter
          (fun p => decide (p.2 = d)) := by
      refine List.filter_congr ?_
      intro p hp
      simp only [Function.comp_apply]
      rw [snd_of_mem_sorted_datePairs _ _ p hp]
    rw [e1, filter_sortByDate, filter_datePairs]
    exact map_fst_datePairs _ _

/-- Sample multi-look grid names used by concrete instantiations. -/
def stackSceneA : List Char := String.toList "s1a-iw-grd-vv-20200113t120000-001"

/-- Second sample multi-look grid name, dated earlier than `stackSceneA`. -/
def stackSceneB : List Char := String.toList "s1b-iw-grd-vv-20200101t120000-002"

theorem get_dates_sorted_perm_stable_witness :
    (∀ fi ∈ [stackSceneA, stackSceneB], 4 < (splitOnChar '-' fi).length)
    ∧ ((get_dates [stackSceneA, stackSceneB] '-').1.Perm [stackSceneA, stackSceneB]
      ∧ (get_dates [stackSceneA, stackSceneB] '-').2
          = (get_dates [stackSceneA, stackSceneB] '-').1.map (extract_date '-')
      ∧ (get_dates [stackSceneA, stackSceneB] '-').2.Pairwise
          (fun d e => lexLe d e = true)
      ∧ ∀ d, (get_dates [stackSceneA, stackSceneB] '-').1.filter
            (fun fi => decide (extract_date '-' fi = d))
          = [stackSceneA, stackSceneB].filter
            (fun fi => decide (extract_date '-' fi = d))) :=
  ⟨by decide, get_dates_sorted_perm_stable [stackSceneA, stackSceneB] '-' (by decide)⟩

/-- Model of `earlier_granule_first` (hyp3_gamma/__main__.py lines 130-133):
`g1[17:32]` is the 15-character slice starting at index 17, and the function
returns `(g1, g2)` when that slice of `g1` is lexicographically at most that
of `g2`, else `(g2, g1)`. -/
def earlier_granule_first (g1 g2 : List Char) : List Char × List Char :=
  if lexLe ((g1.drop 17).take 15) ((g2.drop 17).take 15) then (g1, g2)
  else (g2, g1)

/-- C9: for granule names of length at least 32, `earlier_granule_first`
returns a permutation of its two arguments whose first component's character
slice at positions 17..31 is lexicographically at most the second's, and on
equal slices the original argument order is kept. -/
theorem earlier_granule_first_ordered (g1 g2 : List Char)
    (h1 : 32 ≤ g1.length) (h2 : 32 ≤ g2.length) :
    (earlier_granule_first g1 g2 = (g1, g2)
      ∨ earlier_granule_first g1 g2 = (g2, g1))
    ∧ lexLe (((earlier_granule_first g1 g2).1.drop 17).take 15)
        (((earlier_granule_first g1 g2).2.drop 17).take 15) = true
    ∧ ((g1.drop 17).take 15 = (g2.drop 17).take 15 →
        earlier_granule_first g1 g2 = (g1, g2)) := by
  clear h1 h2
  by_cases hle : lexLe ((g1.drop 17).take 15) ((g2.drop 17).take 15) = true
  · refine ⟨Or.inl ?_, ?_, fun _ => ?_⟩ <;> simp [earlier_granule_first, hle]
  · refine ⟨Or.inr ?_, ?_, fun heq => ?_⟩
    · simp [earlier_granule_first, hle]
    · rcases lexLe_total ((g1.drop 17).take 15) ((g2.drop 17).take 15) with h | h
      · exact absurd h hle
      · simp [earlier_granule_first, hle, h]
    · rw [heq] at hle
      exact absurd (lexLe_refl _) hle

theorem earlier_granule_first_ordered_witness :
    32 ≤ (String.toList "S1A_IW_GRDH_1SDV_20200113T120000_20200113T120025_X_Y_Z").length
    ∧ 32 ≤ (String.toList "S1B_IW_GRDH_1SDV_20200101T120000_20200101T120025_X_Y_Z").length
    ∧ ((earlier_granule_first
          (String.toList "S1A_IW_GRDH_1SDV_20200113T120000_20200113T120025_X_Y_Z")
          (String.toList "S1B_IW_GRDH_1SDV_20200101T120000_20200101T120025_X_Y_Z")
          = (String.toList "S1A_IW_GRDH_1SDV_20200113T120000_20200113T120025_X_Y_Z",
             String.toList "S1B_IW_GRDH_1SDV_20200101T120000_20200101T120025_X_Y_Z")
        ∨ earlier_granule_first
          (String.toList "S1A_IW_GRDH_1SDV_20200113T120000_20200113T120025_X_Y_Z")
          (String.toList "S1B_IW_GRDH_1SDV_20200101T120000_20200101T120025_X_Y_Z")
          = (String.toList "S1B_IW_GRDH_1SDV_20200101T120000_20200101T120025_X_Y_Z",
             String.toList "S1A_IW_GRDH_1SDV_20200113T120000_20200113T120025_X_Y_Z"))
      ∧ lexLe (((earlier_granule_first
            (String.toList "S1A_IW_GRDH_1SDV_20200113T120000_20200113T120025_X_Y_Z")
            (String.toList "S1B_IW_GRDH_1SDV_20200101T120000_20200101T120025_X_Y_Z")).1.drop
              17).take 15)
          (((earlier_granule_first
            (String.toList "S1A_IW_GRDH_1SDV_20200113T120000_20200113T120025_X_Y_Z")
            (String.toList "S1B_IW_GRDH_1SDV_20200101T120000_20200101T120025_X_Y_Z")).2.drop
              17).take 15) = true
      ∧ (((String.toList "S1A_IW_GRDH_1SDV_20200113T120000_20200113T120025_X_Y_Z").drop
            17).take 15
          = ((String.toList "S1B_IW_GRDH_1SDV_20200101T120000_20200101T120025_X_Y_Z").drop
            17).take 15 →
          earlier_granule_first
            (String.toList "S1A_IW_GRDH_1SDV_20200113T120000_20200113T120025_X_Y_Z")
            (String.toList "S1B_IW_GRDH_1SDV_20200101T120000_20200101T120025_X_Y_Z")
          = (String.toList "S1A_IW_GRDH_1SDV_20200113T120000_20200113T120025_X_Y_Z",
             String.toList "S1B_IW_GRDH_1SDV_20200101T120000_20200101T120025_X_Y_Z"))) :=
  ⟨by decide, by decide,
    earlier_granule_first_ordered _ _ (by decide) (by decide)⟩

/-- Model of `get_poly` (rtc_sentinel_stack.py lines 268-273): `delta` is the
pair of leading azimuth and range coefficients parsed from the pair's offset
parameter file (`float(polyaz.split()[0])`, `float(polyra.split()[0])`), and
the function returns `(az_new + az, ra_new + ra)`. -/
def get_poly (az ra : ℚ) (delta : ℚ × ℚ) : ℚ × ℚ :=
  (delta.1 + az, delta.2 + ra)

/-- Accumulator loop of `match_raw_stack` (rtc_sentinel_stack.py lines
217-222): `polyaz = polyra = 0`, then for `x` in `1..n-1` the pair
`(polyaz, polyra)` is replaced by `get_poly(polyaz, polyra, diff_par)` for
the diff-par file of pair `(x-1, x)`. `accumulatedOffset deltas i` is the
accumulator value used for scene index `i`, where `deltas` lists the
pairwise leading (azimuth, range) coefficients in chain order. -/
def accumulatedOffset (deltas : List (ℚ × ℚ)) : ℕ → ℚ × ℚ
  | 0 => (0, 0)
  | i + 1 =>
      get_poly (accumulatedOffset deltas i).1 (accumulatedOffset deltas i).2
        (deltas.getD i (0, 0))

/-- C1: the offset accumulator is a strict left fold over the sorted chain:
index 0 carries (0, 0), each later index adds the pairwise delta to the
previous accumulated value, and equivalently the accumulated offset at index
`i` is the exact componentwise sum of the first `i` pairwise deltas. -/
theorem accumulatedOffset_left_fold (deltas : List (ℚ × ℚ)) (i : ℕ)
    (hi : i ≤ deltas.length) :
    accumulatedOffset deltas 0 = (0, 0)
    ∧ (∀ j, j < deltas.length →
        accumulatedOffset deltas (j + 1)
          = ((accumulatedOffset deltas j).1 + (deltas.getD j (0, 0)).1,
             (accumulatedOffset deltas j).2 + (deltas.getD j (0, 0)).2))
    ∧ accumulatedOffset deltas i
        = (((deltas.take i).map Prod.fst).sum,
           ((deltas.take i).map Prod.snd).sum) := by
  refine ⟨rfl, ?_, ?_⟩
  · intro j _
    simp [accumulatedOffset, get_poly, add_comm]
  · induction i with
    | zero => simp [accumulatedOffset]
    | succ n ihn =>
        have hlt : n < deltas.length := hi
        rw [accumulatedOffset, ihn (Nat.le_of_lt hlt), get_poly, List.take_succ]
        have hg : deltas[n]? = some (deltas.getD n (0, 0)) := by
          rw [List.getElem?_eq_getElem hlt, List.getD_eq_getElem?_getD,
            List.getElem?_eq_getElem hlt]
          rfl
        rw [hg]
        simp [add_comm]

theorem accumulatedOffset_left_fold_witness :
    2 ≤ ([((1 : ℚ)/2, -(1 : ℚ)/5), ((3 : ℚ)/10, (1 : ℚ)/10)] : List (ℚ × ℚ)).length
    ∧ (accumulatedOffset [((1 : ℚ)/2, -(1 : ℚ)/5), ((3 : ℚ)/10, (1 : ℚ)/10)] 0 = (0, 0)
      ∧ (∀ j, j < ([((1 : ℚ)/2, -(1 : ℚ)/5), ((3 : ℚ)/10, (1 : ℚ)/10)] : List (ℚ × ℚ)).length →
          accumulatedOffset [((1 : ℚ)/2, -(1 : ℚ)/5), ((3 : ℚ)/10, (1 : ℚ)/10)] (j + 1)
            = ((accumulatedOffset [((1 : ℚ)/2, -(1 : ℚ)/5), ((3 : ℚ)/10, (1 : ℚ)/10)] j).1
                  + (([((1 : ℚ)/2, -(1 : ℚ)/5), ((3 : ℚ)/10, (1 : ℚ)/10)] : List (ℚ × ℚ)).getD j (0, 0)).1,
               (accumulatedOffset [((1 : ℚ)/2, -(1 : ℚ)/5), ((3 : ℚ)/10, (1 : ℚ)/10)] j).2
                  + (([((1 : ℚ)/2, -(1 : ℚ)/5), ((3 : ℚ)/10, (1 : ℚ)/10)] : List (ℚ × ℚ)).getD j (0, 0)).2))
      ∧ accumulatedOffset [((1 : ℚ)/2, -(1 : ℚ)/5), ((3 : ℚ)/10, (1 : ℚ)/10)] 2
          = (((([((1 : ℚ)/2, -(1 : ℚ)/5), ((3 : ℚ)/10, (1 : ℚ)/10)] : List (ℚ × ℚ)).take 2).map Prod.fst).sum,
             ((([((1 : ℚ)/2, -(1 : ℚ)/5), ((3 : ℚ)/10, (1 : ℚ)/10)] : List (ℚ × ℚ)).take 2).map Prod.snd).sum)) :=
  ⟨by norm_num,
    accumulatedOffset_left_fold [((1 : ℚ)/2, -(1 : ℚ)/5), ((3 : ℚ)/10, (1 : ℚ)/10)] 2 (by norm_num)⟩

/-- External-command and control-flow events observable during the offset
estimation phase of `match_raw_stack` (rtc_sentinel_stack.py lines 168-211). -/
inductive StackEvent where
  | createDiffPar (diffPar : String)
  | runInitOffsetm (diffPar : String)
  | fallbackWarning (diffPar : String)
  | runOffsetPwrm (diffPar : String)
  | runOffsetFitm (diffPar : String)
  | insufficientSNRExit
  deriving DecidableEq

/-- One iteration of the estimation loop (lines 168-211) for the pair whose
diff-par file is `dp`. If the file already exists the pair is skipped (lines
170-171). Otherwise `create_diff_par` and `init_offsetm` run; `os.system`
returns the command's exit status without raising, but the `try` at line 182
can raise for other reasons, which the oracle `tier1Raises` models: in that
case the fallback branch logs a warning and runs `offset_pwrm` (lines
186-191). At lines 192-196 and 207-211 the `offset_fitm` command string is
only assigned (`cmd = "offset_fitm ..."`) and is never passed to
`os.system`, and a pure string assignment cannot raise, so neither `except`
branch — including the `exit(-1)` for "no patches had sufficient SNR" — is
reachable; finally line 204 runs `offset_pwrm` unconditionally. -/
def process_pair (fileExists tier1Raises : String → Bool) (dp : String) :
    List StackEvent :=
  if fileExists dp then []
  else
    [.createDiffPar dp, .runInitOffsetm dp]
    ++ (if tier1Raises dp then [.fallbackWarning dp, .runOffsetPwrm dp] else [])
    ++ [.runOffsetPwrm dp]

/-- Diff-par file names of adjacent pairs (line 169):
`"{}_{}.par".format(dates[x], dates[x+1])` for `x` in `0..n-2`. -/
def pairNames : List String → List String
  | d1 :: d2 :: rest => (d1 ++ "_" ++ d2 ++ ".par") :: pairNames (d2 :: rest)
  | _ => []

/-- The estimation phase (loop at line 168): `process_pair` over each
adjacent date pair in chain order, concatenating the event traces. -/
def estimation_phase (fileExists tier1Raises : String → Bool) :
    List String → List StackEvent
  | d1 :: d2 :: rest =>
      process_pair fileExists tier1Raises (d1 ++ "_" ++ d2 ++ ".par")
        ++ estimation_phase fileExists tier1Raises (d2 :: rest)
  | _ => []

/-- C7: a pair whose diff-par parameter file already exists is skipped
entirely — no diff-par creation, no Tier 1 call, no Tier 2 call — and when
every pair's parameter file exists the estimation phase performs zero new
offset estimations (its event trace is empty). -/
theorem estimation_skip_existing (fe tr : String → Bool) (dates : List String)
    (hall : ∀ dp ∈ pairNames dates, fe dp = true) :
    (∀ dp, fe dp = true → process_pair fe tr dp = [])
    ∧ estimation_phase fe tr dates = [] := by
  refine ⟨fun dp hdp => by simp [process_pair, hdp], ?_⟩
  revert hall
  induction dates with
  | nil => intro _; rfl
  | cons d1 rest ih =>
      intro hall
      cases rest with
      | nil => rfl
      | cons d2 rest2 =>
          have h1 : fe (d1 ++ "_" ++ d2 ++ ".par") = true :=
            hall _ (by rw [pairNames]; exact List.mem_cons_self _ _)
          have h2 : estimation_phase fe tr (d2 :: rest2) = [] :=
            ih (fun dp hdp => hall dp (by rw [pairNames]; exact List.mem_cons_of_mem _ hdp))
          rw [estimation_phase, h2]
          simp [process_pair, h1]

theorem estimation_skip_existing_witness :
    (∀ dp ∈ pairNames ["20200101", "20200113"],
        (fun _ => true : String → Bool) dp = true)
    ∧ ((∀ dp, (fun _ => true : String → Bool) dp = true →
          process_pair (fun _ => true) (fun _ => false) dp = [])
      ∧ estimation_phase (fun _ => true) (fun _ => false)
          ["20200101", "20200113"] = []) :=
  ⟨fun _ _ => rfl,
    estimation_skip_existing (fun _ => true) (fun _ => false)
      ["20200101", "20200113"] (fun _ _ => rfl)⟩

theorem runOffsetFitm_not_in_process_pair (fe tr : String → Bool)
    (dp dp2 : String) :
    StackEvent.runOffsetFitm dp ∉ process_pair fe tr dp2 := by
  by_cases h1 : fe dp2 <;> by_cases h2 : tr dp2 <;>
    simp [process_pair, h1, h2]

/-- C4 (code evaluation): the Tier 2 polynomial fit is never executed. For
every file-existence oracle, every Tier 1 exception behaviour and every date
chain, no `offset_fitm` invocation occurs in the estimation phase: lines 193
and 208 only assign the command string and never pass it to `os.system`, so
the "cross-correlation search followed by polynomial fit" the claim
describes runs its search step but never its fit step. -/
theorem offset_fitm_never_executed (fe tr : String → Bool)
    (dates : List String) (dp : String) :
    StackEvent.runOffsetFitm dp ∉ estimation_phase fe tr dates := by
  induction dates with
  | nil => simp [estimation_phase]
  | cons d1 rest ih =>
      cases rest with
      | nil => simp [estimation_phase]
      | cons d2 rest2 =>
          rw [estimation_phase]
          intro hmem
          rcases List.mem_append.mp hmem with h | h
          · exact runOffsetFitm_not_in_process_pair fe tr dp _ h
          · exact ih h

theorem insufficientSNRExit_not_in_process_pair (fe tr : String → Bool)
    (dp2 : String) :
    StackEvent.insufficientSNRExit ∉ process_pair fe tr dp2 := by
  by_cases h1 : fe dp2 <;> by_cases h2 : tr dp2 <;>
    simp [process_pair, h1, h2]

/-- C5 (code evaluation): the fatal insufficient-SNR abort can never happen.
For every file-existence oracle, every Tier 1 exception behaviour and every
date chain, the estimation phase never emits the `exit(-1)` of lines
194-196: that `except` clause guards only the pure assignment
`cmd = "offset_fitm ..."`, which cannot raise, and `offset_fitm` itself is
never run, so a pair with zero sufficient-SNR patches is never detected and
the run proceeds to product generation instead of aborting. -/
theorem insufficientSNR_exit_unreachable (fe tr : String → Bool)
    (dates : List String) :
    StackEvent.insufficientSNRExit ∉ estimation_phase fe tr dates := by
  induction dates with
  | nil => simp [estimation_phase]
  | cons d1 rest ih =>
      cases rest with
      | nil => simp [estimation_phase]
      | cons d2 rest2 =>
          rw [estimation_phase]
          intro hmem
          rcases List.mem_append.mp hmem with h | h
          · exact insufficientSNRExit_not_in_process_pair fe tr _ h
          · exact ih h

/-- Python return value of `fix_diff_par` (rtc_sentinel_stack.py lines
254-266): the function writes the rewritten `_accum.par` file and then falls
off the end of its body with no `return` statement, so its value is `None`. -/
def fix_diff_par_return (az ra : ℚ) (diff_par : String) : Option String :=
  none

/-- The per-scene tail of the product generation loop (lines 219-224): for
each non-reference scene, accumulate the pair's delta with `get_poly`, bind
`new_par` to the value returned by `fix_diff_par`, and call `rtc_granule`
with `stack=new_par`. Returns the `(scene, stack argument)` call list. -/
def product_tail : List String → List String → List (ℚ × ℚ) → ℚ × ℚ →
    List (String × Option String)
  | [], _, _, _ => []
  | f :: fs, dps, ds, acc =>
      (f, fix_diff_par_return (get_poly acc.1 acc.2 (ds.headD (0, 0))).1
            (get_poly acc.1 acc.2 (ds.headD (0, 0))).2 (dps.headD ""))
        :: product_tail fs dps.tail ds.tail (get_poly acc.1 acc.2 (ds.headD (0, 0)))

/-- Product generation phase of `match_raw_stack` (lines 213-224):
`rtc_granule(sorted_files[0], ...)` with the default `stack=None` for the
reference scene, then the accumulating loop over the remaining scenes with
`stack=new_par`. `files` are the sorted scene identifiers, `dates` the
sorted date tokens, `deltas` the pairwise polynomial leading coefficients
read back from the pair files. -/
def product_phase (files dates : List String) (deltas : List (ℚ × ℚ)) :
    List (String × Option String) :=
  match files with
  | [] => []
  | f0 :: rest => (f0, none) :: product_tail rest (pairNames dates) deltas (0, 0)

/-- C3 (code evaluation): on a concrete two-scene stack the reference scene
is invoked without offset correction, but the non-reference scene's
`rtc_granule` call also receives `stack = none` rather than the rewritten
`_accum.par` path, because `fix_diff_par` has no `return` statement and
`new_par` is therefore `None`. -/
theorem product_phase_stack_arg_none :
    product_phase ["sceneA.SAFE", "sceneB.SAFE"] ["20200101", "20200113"]
        [((1 : ℚ)/2, -(1 : ℚ)/5)]
      = [("sceneA.SAFE", none), ("sceneB.SAFE", none)] := by
  rfl

/-- Key of the range offset polynomial line. -/
def rangeKey : List Char := String.toList "range_offset_polynomial"

/-- Key of the azimuth offset polynomial line. -/
def azKey : List Char := String.toList "azimuth_offset_polynomial"

/-- Tail of a rewritten polynomial line: the five zero higher-order terms. -/
def zerosTail : List Char := String.toList " 0.0 0.0 0.0 0.0 0.0"

/-- Rewritten range line (line 260):
`"range_offset_polynomial: {} 0.0 0.0 0.0 0.0 0.0".format(ra)`. -/
def fmtRangeLine (ra : List Char) : List Char :=
  rangeKey ++ (String.toList ": " ++ (ra ++ zerosTail))

/-- Rewritten azimuth line (line 262):
`"azimuth_offset_polynomial: {} 0.0 0.0 0.0 0.0 0.0".format(az)`. -/
def fmtAzLine (az : List Char) : List Char :=
  azKey ++ (String.toList ": " ++ (az ++ zerosTail))

/-- Per-line rewrite of `fix_diff_par` (lines 258-264): a line containing
the range key is replaced by the formatted range line, else a line
containing the azimuth key by the formatted azimuth line, and any other
line is written through verbatim. -/
def fix_line (az ra line : List Char) : List Char :=
  if hasSub rangeKey line then fmtRangeLine ra
  else if hasSub azKey line then fmtAzLine az
  else line

/-- Content transformation of `fix_diff_par`: the output file is the input
file with `fix_line` applied to every line. -/
def fix_diff_par_lines (az ra : List Char) (lines : List (List Char)) :
    List (List Char) :=
  lines.map (fix_line az ra)

/-- Extension removed by the output-name computation. -/
def parExt : List Char := String.toList ".par"

/-- Suffix appended by the output-name computation. -/
def accumSuffix : List Char := String.toList "_accum.par"

/-- Python's `str.replace(pat, repl)` for a non-empty pattern: scan left to
right replacing non-overlapping leftmost occurrences (an empty pattern is
mapped to the identity; `fix_diff_par` only uses the pattern ".par"). -/
def replaceAll (pat repl : List Char) : List Char → List Char
  | [] => []
  | c :: cs =>
      if leadsWith pat (c :: cs) && !pat.isEmpty then
        repl ++ replaceAll pat repl (cs.drop (pat.length - 1))
      else c :: replaceAll pat repl cs
termination_by s => s.length
decreasing_by
  · simp only [List.length_cons, List.length_drop]
    omega
  · simp only [List.length_cons]
    omega

/-- Output file name of `fix_diff_par` (line 256):
`diff_par.replace(".par", "") + "_accum.par"`. -/
def fix_diff_par_outfile (diff_par : List Char) : List Char :=
  replaceAll parExt [] diff_par ++ accumSuffix

theorem leadsWith_length_le (p : List Char) :
    ∀ s, leadsWith p s = true → p.length ≤ s.length := by
  induction p with
  | nil => intro s _; simp
  | cons x xs ihp =>
      intro s hps
      cases s with
      | nil => simp [leadsWith] at hps
      | cons y ys =>
          have h2 : leadsWith xs ys = true := by
            have := hps
            rw [leadsWith] at this
            exact (Bool.and_eq_true_iff.mp this).2
          have := ihp ys h2
          simp only [List.length_cons]
          omega

theorem replaceAll_nil_length (pat : List Char) :
    ∀ n (s : List Char), s.length ≤ n →
      ∃ k, s.length = (replaceAll pat [] s).length + pat.length * k := by
  intro n
  induction n with
  | zero =>
      intro s hs
      cases s with
      | nil => exact ⟨0, by simp [replaceAll]⟩
      | cons c cs => simp at hs
  | succ n ihn =>
      intro s hs
      cases s with
      | nil => exact ⟨0, by simp [replaceAll]⟩
      | cons c cs =>
          simp only [List.length_cons] at hs
          rw [replaceAll]
          by_cases hcond : (leadsWith pat (c :: cs) && !pat.isEmpty) = true
          · rw [if_pos hcond]
            obtain ⟨hlw, hne⟩ : leadsWith pat (c :: cs) = true ∧ pat.isEmpty = false := by
              constructor
              · exact (Bool.and_eq_true_iff.mp hcond).1
              · have h2 := (Bool.and_eq_true_iff.mp hcond).2
                simp only [Bool.not_eq_true'] at h2
                exact h2
            have hple : 1 ≤ pat.length := by
              cases pat with
              | nil => simp [List.isEmpty] at hne
              | cons p ps => simp
            have hfit : pat.length ≤ cs.length + 1 := by
              have := leadsWith_length_le pat (c :: cs) hlw
              simpa using this
            obtain ⟨k, hk⟩ := ihn (cs.drop (pat.length - 1))
              (by simp only [List.length_drop]; omega)
            refine ⟨k + 1, ?_⟩
            simp only [List.length_drop] at hk
            simp only [List.nil_append, List.length_cons]
            have hmul : pat.length * (k + 1) = pat.length * k + pat.length := by ring
            omega
          · rw [if_neg hcond]
            obtain ⟨k, hk⟩ := ihn cs (by omega)
            refine ⟨k, ?_⟩
            simp only [List.length_cons, hk]
            omega

/-- The rewritten file never overwrites the original: the output name
differs from the input name, because the name transformation removes some
number of 4-character ".par" occurrences and appends the 10-character
"_accum.par". -/
theorem fix_diff_par_outfile_ne (diff_par : List Char) :
    fix_diff_par_outfile diff_par ≠ diff_par := by
  intro h
  have hlen := congrArg List.length h
  obtain ⟨k, hk⟩ :=
    replaceAll_nil_length parExt diff_par.length diff_par le_rfl
  have h4 : parExt.length = 4 := by decide
  have h10 : accumSuffix.length = 10 := by decide
  rw [fix_diff_par_outfile] at hlen
  rw [List.length_append, h10] at hlen
  rw [h4] at hk
  omega

/-- First whitespace-separated token of a string, as Python's `split()[0]`
produces it for the space-separated polynomial value lists written here:
drop leading spaces, then take until the next space. -/
def firstTok (s : List Char) : List Char :=
  (s.dropWhile (fun c => c == ' ')).takeWhile (fun c => !(c == ' '))

/-- Modelled from the spec: `getParameter` is imported from a helper module
that is not among this repository's source files; per the spec's file-format
contract it returns the text after `key:` on the line carrying `key`, and
`get_poly` then takes `split()[0]`. `parse_leading key line` re-parses the
leading coefficient token of a polynomial line of the form `key: <values>`. -/
def parse_leading (key line : List Char) : List Char :=
  firstTok (line.drop (key.length + 1))

theorem drop_length_add_one (a : List Char) (c0 : Char) (b : List Char) :
    (a ++ (c0 :: b)).drop (a.length + 1) = b := by
  induction a with
  | nil => simp
  | cons x xs ih =>
      simp only [List.cons_append, List.length_cons]
      rw [Nat.add_right_comm, List.drop_succ_cons]
      exact ih

theorem takeWhile_no_space (a b : List Char) (h : ∀ c ∈ a, ¬ c = ' ') :
    (a ++ (' ' :: b)).takeWhile (fun c => !(c == ' ')) = a := by
  induction a with
  | nil => simp [List.takeWhile_cons]
  | cons x xs ih =>
      have hx : ¬ x = ' ' := h x (by simp)
      simp only [List.cons_append, List.takeWhile_cons]
      have hx2 : (!(x == ' ')) = true := by
        simp [hx]
      rw [hx2]
      simp only [if_true]
      rw [ih (fun c hc => h c (by simp [hc]))]

theorem parse_leading_fmt (key tok : List Char) (h1 : tok ≠ [])
    (h2 : ∀ c ∈ tok, ¬ c = ' ') :
    parse_leading key (key ++ (String.toList ": " ++ (tok ++ zerosTail))) = tok := by
  obtain ⟨t0, ts, rfl⟩ := List.exists_cons_of_ne_nil h1
  have h0 : ¬ t0 = ' ' := h2 t0 (by simp)
  have e1 : String.toList ": " ++ ((t0 :: ts) ++ zerosTail)
      = ':' :: (' ' :: ((t0 :: ts) ++ zerosTail)) := rfl
  rw [parse_leading, e1, drop_length_add_one, firstTok]
  have e2 : (' ' :: ((t0 :: ts) ++ zerosTail)).dropWhile (fun c => c == ' ')
      = (t0 :: ts) ++ zerosTail := by
    rw [List.dropWhile_cons]
    simp only [beq_self_eq_true, if_true]
    rw [List.cons_append, List.dropWhile_cons]
    have : (t0 == ' ') = false := by simp [h0]
    rw [this]
    simp
  rw [e2]
  have e3 : (t0 :: ts) ++ zerosTail
      = (t0 :: ts) ++ (' ' :: String.toList "0.0 0.0 0.0 0.0 0.0") := rfl
  rw [e3, takeWhile_no_space (t0 :: ts) _ h2]

/-- C6: rewriting an offset-parameter file with `fix_diff_par` writes to a
file whose name always differs from the input (the original file is never
modified in place); every line containing neither polynomial key is copied
through byte-for-byte; the line containing the range key becomes
`range_offset_polynomial: <c0> 0.0 0.0 0.0 0.0 0.0` with `c0` the injected
range coefficient, and likewise for the azimuth key; and re-parsing the two
rewritten polynomial lines yields exactly the injected coefficient tokens
(round-trip), for nonempty space-free coefficient tokens. -/
theorem fix_diff_par_preserves_and_roundtrips (az ra : List Char)
    (lines : List (List Char)) (diff_par : List Char)
    (hra1 : ra ≠ []) (hra2 : ∀ c ∈ ra, ¬ c = ' ')
    (haz1 : az ≠ []) (haz2 : ∀ c ∈ az, ¬ c = ' ') :
    fix_diff_par_outfile diff_par ≠ diff_par
    ∧ fix_diff_par_lines az ra lines = lines.map (fix_line az ra)
    ∧ (∀ l ∈ lines, hasSub rangeKey l = false → hasSub azKey l = false →
        fix_line az ra l = l)
    ∧ (∀ l ∈ lines, hasSub rangeKey l = true →
        fix_line az ra l = fmtRangeLine ra)
    ∧ (∀ l ∈ lines, hasSub rangeKey l = false → hasSub azKey l = true →
        fix_line az ra l = fmtAzLine az)
    ∧ parse_leading rangeKey (fmtRangeLine ra) = ra
    ∧ parse_leading azKey (fmtAzLine az) = az := by
  refine ⟨fix_diff_par_outfile_ne diff_par, rfl, ?_, ?_, ?_, ?_, ?_⟩
  · intro l _ hr ha
    simp [fix_line, hr, ha]
  · intro l _ hr
    simp [fix_line, hr]
  · intro l _ hr ha
    simp [fix_line, hr, ha]
  · exact parse_leading_fmt rangeKey ra hra1 hra2
  · exact parse_leading_fmt azKey az haz1 haz2

theorem fix_diff_par_preserves_and_roundtrips_witness :
    ((String.toList "0.5") ≠ [] ∧ (∀ c ∈ String.toList "0.5", ¬ c = ' ')
      ∧ (String.toList "-0.2") ≠ [] ∧ (∀ c ∈ String.toList "-0.2", ¬ c = ' '))
    ∧ (fix_diff_par_outfile (String.toList "20200101_20200113.par")
        ≠ String.toList "20200101_20200113.par"
      ∧ fix_diff_par_lines (String.toList "-0.2") (String.toList "0.5")
          [String.toList "title: diff parameters",
           String.toList "range_offset_polynomial:   7.5 0.1 0.0 0.0 0.0 0.0",
           String.toList "azimuth_offset_polynomial: -3.25 0.0 0.2 0.0 0.0 0.0"]
        = [String.toList "title: diff parameters",
           String.toList "range_offset_polynomial:   7.5 0.1 0.0 0.0 0.0 0.0",
           String.toList "azimuth_offset_polynomial: -3.25 0.0 0.2 0.0 0.0 0.0"].map
            (fix_line (String.toList "-0.2") (String.toList "0.5"))
      ∧ (∀ l ∈ [String.toList "title: diff parameters",
           String.toList "range_offset_polynomial:   7.5 0.1 0.0 0.0 0.0 0.0",
           String.toList "azimuth_offset_polynomial: -3.25 0.0 0.2 0.0 0.0 0.0"],
          hasSub rangeKey l = false → hasSub azKey l = false →
          fix_line (String.toList "-0.2") (String.toList "0.5") l = l)
      ∧ (∀ l ∈ [String.toList "title: diff parameters",
           String.toList "range_offset_polynomial:   7.5 0.1 0.0 0.0 0.0 0.0",
           String.toList "azimuth_offset_polynomial: -3.25 0.0 0.2 0.0 0.0 0.0"],
          hasSub rangeKey l = true →
          fix_line (String.toList "-0.2") (String.toList "0.5") l
            = fmtRangeLine (String.toList "0.5"))
      ∧ (∀ l ∈ [String.toList "title: diff parameters",
           String.toList "range_offset_polynomial:   7.5 0.1 0.0 0.0 0.0 0.0",
           String.toList "azimuth_offset_polynomial: -3.25 0.0 0.2 0.0 0.0 0.0"],
          hasSub rangeKey l = false → hasSub azKey l = true →
          fix_line (String.toList "-0.2") (String.toList "0.5") l
            = fmtAzLine (String.toList "-0.2"))
      ∧ parse_leading rangeKey (fmtRangeLine (String.toList "0.5"))
          = String.toList "0.5"
      ∧ parse_leading azKey (fmtAzLine (String.toList "-0.2"))
          = String.toList "-0.2") :=
  ⟨⟨by decide, by decide, by decide, by decide⟩,
    fix_diff_par_preserves_and_roundtrips (String.toList "-0.2")
      (String.toList "0.5")
      [String.toList "title: diff parameters",
       String.toList "range_offset_polynomial:   7.5 0.1 0.0 0.0 0.0 0.0",
       String.toList "azimuth_offset_polynomial: -3.25 0.0 0.2 0.0 0.0 0.0"]
      (String.toList "20200101_20200113.par")
      (by decide) (by decide) (by decide) (by decide)⟩

/-- Grid geometry computed by `create_dem_par`: snapped extents and sizes. -/
structure DemPar where
  x_max : ℚ
  x_min : ℚ
  y_max : ℚ
  y_min : ℚ
  xsize : ℤ
  ysize : ℤ

/-- Geometry part of `create_dem_par` (rtc_sentinel_stack.py lines 41-76).
The projection `geometry_geo2proj` is an external collaborator, so the model
takes the projected corner values as inputs. When `post` is not `None` the
extents are snapped (lines 45-50, with `shift = 0`): maxima to
`ceil(v/post)*post`, minima to `floor(v/post)*post`; the grid sizes (lines
67-68) are `floor(abs((max-min)/pixel_size))`, written to the parameter file
as integers. -/
def create_dem_par (pixel_size y_max y_min x_max x_min : ℚ)
    (post : Option ℚ) : DemPar :=
  match post with
  | none =>
      { x_max := x_max, x_min := x_min, y_max := y_max, y_min := y_min,
        xsize := ⌊|(x_max - x_min) / pixel_size|⌋,
        ysize := ⌊|(y_max - y_min) / pixel_size|⌋ }
  | some p =>
      { x_max := (⌈x_max / p⌉ : ℚ) * p, x_min := (⌊x_min / p⌋ : ℚ) * p,
        y_max := (⌈y_max / p⌉ : ℚ) * p, y_min := (⌊y_min / p⌋ : ℚ) * p,
        xsize := ⌊|((⌈x_max / p⌉ : ℚ) * p - (⌊x_min / p⌋ : ℚ) * p) / pixel_size|⌋,
        ysize := ⌊|((⌈y_max / p⌉ : ℚ) * p - (⌊y_min / p⌋ : ℚ) * p) / pixel_size|⌋ }

theorem ceil_snap_spec (v p : ℚ) (hp : 0 < p) :
    v ≤ (⌈v / p⌉ : ℚ) * p
    ∧ ∀ m : ℤ, v ≤ (m : ℚ) * p → (⌈v / p⌉ : ℚ) * p ≤ (m : ℚ) * p := by
  constructor
  · have h1 : v / p ≤ (⌈v / p⌉ : ℚ) := Int.le_ceil _
    have h2 := mul_le_mul_of_nonneg_right h1 (le_of_lt hp)
    rwa [div_mul_cancel₀ v (ne_of_gt hp)] at h2
  · intro m hm
    have h2 : v / p ≤ (m : ℚ) := (div_le_iff hp).mpr hm
    have h3 : ⌈v / p⌉ ≤ m := Int.ceil_le.mpr h2
    exact mul_le_mul_of_nonneg_right (by exact_mod_cast h3) (le_of_lt hp)

theorem floor_snap_spec (v p : ℚ) (hp : 0 < p) :
    (⌊v / p⌋ : ℚ) * p ≤ v
    ∧ ∀ m : ℤ, (m : ℚ) * p ≤ v → (m : ℚ) * p ≤ (⌊v / p⌋ : ℚ) * p := by
  constructor
  · have h1 : (⌊v / p⌋ : ℚ) ≤ v / p := Int.floor_le _
    have h2 := mul_le_mul_of_nonneg_right h1 (le_of_lt hp)
    rwa [div_mul_cancel₀ v (ne_of_gt hp)] at h2
  · intro m hm
    have h2 : (m : ℚ) ≤ v / p := (le_div_iff hp).mpr hm
    have h3 : m ≤ ⌊v / p⌋ := Int.le_floor.mpr h2
    exact mul_le_mul_of_nonneg_right (by exact_mod_cast h3) (le_of_lt hp)

/-- C8: with a non-null snap interval `p > 0`, `create_dem_par` snaps each
maximum extent up to the smallest multiple of `p` at or above it, snaps each
minimum extent down to the largest multiple of `p` at or below it, and the
grid width and height are the floor of the absolute snapped extent span
divided by the pixel size. -/
theorem create_dem_par_snap_grid (pixel_size y_max y_min x_max x_min p : ℚ)
    (hp : 0 < p) (hpix : 0 < pixel_size) :
    ((∃ k : ℤ, (create_dem_par pixel_size y_max y_min x_max x_min (some p)).x_max
        = (k : ℚ) * p)
      ∧ x_max ≤ (create_dem_par pixel_size y_max y_min x_max x_min (some p)).x_max
      ∧ (∀ m : ℤ, x_max ≤ (m : ℚ) * p →
          (create_dem_par pixel_size y_max y_min x_max x_min (some p)).x_max
            ≤ (m : ℚ) * p))
    ∧ ((∃ k : ℤ, (create_dem_par pixel_size y_max y_min x_max x_min (some p)).x_min
        = (k : ℚ) * p)
      ∧ (create_dem_par pixel_size y_max y_min x_max x_min (some p)).x_min ≤ x_min
      ∧ (∀ m : ℤ, (m : ℚ) * p ≤ x_min →
          (m : ℚ) * p
            ≤ (create_dem_par pixel_size y_max y_min x_max x_min (some p)).x_min))
    ∧ ((∃ k : ℤ, (create_dem_par pixel_size y_max y_min x_max x_min (some p)).y_max
        = (k : ℚ) * p)
      ∧ y_max ≤ (create_dem_par pixel_size y_max y_min x_max x_min (some p)).y_max
      ∧ (∀ m : ℤ, y_max ≤ (m : ℚ) * p →
          (create_dem_par pixel_size y_max y_min x_max x_min (some p)).y_max
            ≤ (m : ℚ) * p))
    ∧ ((∃ k : ℤ, (create_dem_par pixel_size y_max y_min x_max x_min (some p)).y_min
        = (k : ℚ) * p)
      ∧ (create_dem_par pixel_size y_max y_min x_max x_min (some p)).y_min ≤ y_min
      ∧ (∀ m : ℤ, (m : ℚ) * p ≤ y_min →
          (m : ℚ) * p
            ≤ (create_dem_par pixel_size y_max y_min x_max x_min (some p)).y_min))
    ∧ (create_dem_par pixel_size y_max y_min x_max x_min (some p)).xsize
        = ⌊|(create_dem_par pixel_size y_max y_min x_max x_min (some p)).x_max
            - (create_dem_par pixel_size y_max y_min x_max x_min (some p)).x_min|
            / pixel_size⌋
    ∧ (create_dem_par pixel_size y_max y_min x_max x_min (some p)).ysize
        = ⌊|(create_dem_par pixel_size y_max y_min x_max x_min (some p)).y_max
            - (create_dem_par pixel_size y_max y_min x_max x_min (some p)).y_min|
            / pixel_size⌋ := by
  simp only [create_dem_par]
  refine ⟨⟨⟨⌈x_max / p⌉, rfl⟩, (ceil_snap_spec x_max p hp).1,
      (ceil_snap_spec x_max p hp).2⟩,
    ⟨⟨⌊x_min / p⌋, rfl⟩, (floor_snap_spec x_min p hp).1,
      (floor_snap_spec x_min p hp).2⟩,
    ⟨⟨⌈y_max / p⌉, rfl⟩, (ceil_snap_spec y_max p hp).1,
      (ceil_snap_spec y_max p hp).2⟩,
    ⟨⟨⌊y_min / p⌋, rfl⟩, (floor_snap_spec y_min p hp).1,
      (floor_snap_spec y_min p hp).2⟩,
    ?_, ?_⟩
  · rw [abs_div, abs_of_pos hpix]
  · rw [abs_div, abs_of_pos hpix]

theorem create_dem_par_snap_grid_witness :
    0 < (30 : ℚ) ∧ 0 < (30 : ℚ)
    ∧ ((∃ k : ℤ, (create_dem_par 30 64 12 95 7 (some 30)).x_max = (k : ℚ) * 30)
      ∧ 95 ≤ (create_dem_par 30 64 12 95 7 (some 30)).x_max
      ∧ (∀ m : ℤ, 95 ≤ (m : ℚ) * 30 →
          (create_dem_par 30 64 12 95 7 (some 30)).x_max ≤ (m : ℚ) * 30))
    ∧ ((∃ k : ℤ, (create_dem_par 30 64 12 95 7 (some 30)).x_min = (k : ℚ) * 30)
      ∧ (create_dem_par 30 64 12 95 7 (some 30)).x_min ≤ 7
      ∧ (∀ m : ℤ, (m : ℚ) * 30 ≤ 7 →
          (m : ℚ) * 30 ≤ (create_dem_par 30 64 12 95 7 (some 30)).x_min))
    ∧ ((∃ k : ℤ, (create_dem_par 30 64 12 95 7 (some 30)).y_max = (k : ℚ) * 30)
      ∧ 64 ≤ (create_dem_par 30 64 12 95 7 (some 30)).y_max
      ∧ (∀ m : ℤ, 64 ≤ (m : ℚ) * 30 →
          (create_dem_par 30 64 12 95 7 (some 30)).y_max ≤ (m : ℚ) * 30))
    ∧ ((∃ k : ℤ, (create_dem_par 30 64 12 95 7 (some 30)).y_min = (k : ℚ) * 30)
      ∧ (create_dem_par 30 64 12 95 7 (some 30)).y_min ≤ 12
      ∧ (∀ m : ℤ, (m : ℚ) * 30 ≤ 12 →
          (m : ℚ) * 30 ≤ (create_dem_par 30 64 12 95 7 (some 30)).y_min))
    ∧ (create_dem_par 30 64 12 95 7 (some 30)).xsize
        = ⌊|(create_dem_par 30 64 12 95 7 (some 30)).x_max
            - (create_dem_par 30 64 12 95 7 (some 30)).x_min| / 30⌋
    ∧ (create_dem_par 30 64 12 95 7 (some 30)).ysize
        = ⌊|(create_dem_par 30 64 12 95 7 (some 30)).y_max
            - (create_dem_par 30 64 12 95 7 (some 30)).y_min| / 30⌋ :=
  ⟨by norm_num, by norm_num,
    create_dem_par_snap_grid 30 64 12 95 7 30 (by norm_num) (by norm_num)⟩

/-- Substring looked for in scale names: "amp". -/
def ampStr : List Char := String.toList "amp"

/-- Substring looked for in scale names: "power". -/
def powerStr : List Char := String.toList "power"

/-- Substring looked for in lowercased scale names: "db". -/
def dbStr : List Char := String.toList "db"

/-- Message prefix of the exception raised for an unknown output scale. -/
def unknownScaleMsg : List Char := String.toList "Unknown output scale "

/-- Model of `scale_data` (converter.py lines 203-216). The backscatter
array is modelled elementwise as a list of exact rationals; `np.log` is a
floating-point routine external to the control flow under study and is
passed in as an abstract function `nplog`. A Python `raise` is modelled as
`Except.error` carrying the message. -/
def scale_data (nplog : ℚ → ℚ) (backscatter : List ℚ)
    (scene_scale output_scale : List Char) : Except (List Char) (List ℚ) :=
  let power_data :=
    if hasSub ampStr scene_scale then backscatter.map (fun x => x * x)
    else backscatter
  if hasSub powerStr output_scale then Except.ok power_data
  else if hasSub ampStr output_scale then Except.ok backscatter
  else if hasSub dbStr (output_scale.map Char.toLower) then
    Except.ok (power_data.map (fun x => 10 * nplog x))
  else Except.error (unknownScaleMsg ++ output_scale)

/-- C10: `scale_data` raises exactly when the output scale contains none of
the substrings "power", "amp" or (case-insensitively) "db"; with scene scale
"power" and an output scale containing "power" it returns the input
unchanged; with a scene scale containing "amp" and an output scale
containing "power" it returns the elementwise square of the input. -/
theorem scale_data_raise_and_power (nplog : ℚ → ℚ) (backscatter : List ℚ)
    (scene_scale output_scale : List Char) :
    ((∃ msg, scale_data nplog backscatter scene_scale output_scale
        = Except.error msg)
      ↔ (hasSub powerStr output_scale = false
        ∧ hasSub ampStr output_scale = false
        ∧ hasSub dbStr (output_scale.map Char.toLower) = false))
    ∧ (scene_scale = powerStr →
        hasSub powerStr output_scale = true →
        scale_data nplog backscatter scene_scale output_scale
          = Except.ok backscatter)
    ∧ (hasSub ampStr scene_scale = true →
        hasSub powerStr output_scale = true →
        scale_data nplog backscatter scene_scale output_scale
          = Except.ok (backscatter.map (fun x => x * x))) := by
  refine ⟨?_, ?_, ?_⟩
  · by_cases h1 : hasSub powerStr output_scale = true
    · simp [scale_data, h1]
    · by_cases h2 : hasSub ampStr output_scale = true
      · simp [scale_data, h1, h2]
      · by_cases h3 : hasSub dbStr (output_scale.map Char.toLower) = true
        · simp [scale_data, h1, h2, h3]
        · simp [scale_data, h1, h2, h3,
            Bool.eq_false_iff.mpr h1, Bool.eq_false_iff.mpr h2,
            Bool.eq_false_iff.mpr h3]
  · intro hsc h1
    subst hsc
    have hamp : hasSub ampStr powerStr = false := by decide
    simp [scale_data, h1, hamp]
  · intro hamp h1
    simp [scale_data, h1, hamp]

theorem scale_data_raise_and_power_witness :
    ((String.toList "amplitude") = String.toList "amplitude"
      ∧ hasSub ampStr (String.toList "amplitude") = true
      ∧ hasSub powerStr powerStr = true)
    ∧ scale_data (fun _ => 0) [(2 : ℚ), 3] (String.toList "amplitude") powerStr
      = Except.ok ([(2 : ℚ), 3].map (fun x => x * x)) :=
  ⟨⟨rfl, by decide, by decide⟩,
    (scale_data_raise_and_power (fun _ => 0) [(2 : ℚ), 3]
      (String.toList "amplitude") powerStr).2.2 (by decide) (by decide)⟩
